import Mathlib

/-!
Verification of the labe citation-fusion server (`go/ckit/server.go`, package
`ckit`; an earlier revision lives in `tools/spindel/server.go`).  The Go
request handler is shallowly embedded: pure Lean functions mirror the Go
functions of the same names, SQL queries over the two `map(k, v)` tables are
modelled as list filters over the table rows, and the external JSON
serializer, the zstd codec and the index-data fetcher are abstracted as
parameters or identity round-trips.
-/

namespace Ckit

/-! ## Definitions: the shallow embedding of the server -/

/-- A row of one of the `map(k TEXT, v TEXT)` sqlite tables (Go struct
`Map` with fields `Key`/`Value`, db tags `k`/`v`). -/
abbrev Pair := String × String

/-- Raw index metadata blob (`json.RawMessage` in Go), kept opaque. -/
abbrev Doc := String

/-- Modelled from the spec: the set container (§4.1), "an
insertion-order-irrelevant collection of distinct strings supporting: add,
contains, length, emptiness test, materialize as sequence, union,
difference".  We realise it as a duplicate-free list; iteration order (which
Go's map does not fix) is determinized to insertion order. -/
abbrev StrSet := List String

/-- Modelled from the spec: `Set.Add`, inserting a string if absent. -/
def sadd (s : StrSet) (x : String) : StrSet :=
  if x ∈ s then s else s ++ [x]

/-- Modelled from the spec: `Set.FromSlice`, adding every element in turn. -/
def sfromSlice (xs : List String) : StrSet :=
  xs.foldl sadd []

/-- Modelled from the spec: `Set.Union` of two sets. -/
def sunion (a b : StrSet) : StrSet :=
  b.foldl sadd a

/-- Modelled from the spec: right-biased `Set.Difference` — "elements of the
left set not in the right" (§4.1). -/
def sdiff (a b : StrSet) : StrSet :=
  a.filter (fun x => decide (x ∉ b))

/-- One iteration bound of the `batchedStrings` loop.  The Go loop keeps
cutting `n`-element slices off the front; `fuel` is a structural bound on
the number of iterations (the caller passes `ss.length`, which suffices for
every `n ≥ 1`, see `batchedStringsAux_fuel_le`). -/
def batchedStringsAux (n : Nat) : Nat → List String → List (List String)
  | 0, ss => [ss]
  | fuel + 1, ss =>
    if ss.length ≤ n then [ss]
    else ss.take n :: batchedStringsAux n fuel (ss.drop n)

/-- Go `batchedStrings(ss, n)`: splits `ss` into consecutive slices of at
most `n` elements (`result = ss[0:n], ss[n:2n], …, ss[b:]`); the server
calls it with `n = 500` only.  For `n = 0` and non-empty `ss` the Go loop
never terminates; to stay total we return `[ss]` in that never-exercised
case (for `ss = []`, `[ss]` is exactly what the Go loop produces, for any
`n`). -/
def batchedStrings (ss : List String) (n : Nat) : List (List String) :=
  if n = 0 then [ss] else batchedStringsAux n ss.length ss

/-- One `SELECT * FROM map WHERE v IN (batch)` against a table of rows:
exactly the rows whose `v` column is a member of the batch, in table
order. -/
def queryInByV (table : List Pair) (batch : List String) : List Pair :=
  table.filter (fun p => decide (p.2 ∈ batch))

/-- Go `mapToLocal` with the batch size exposed as a parameter and the
`sqlx.In` error path elided: for each batch of `batchedStrings dois n`,
issue the IN-query and append the results to the accumulator.  This is the
rows-only projection of the full `mapToLocalE` below; the two agree on
every non-empty DOI list (`mapToLocalE_ok`), and a non-empty DOI list is
all the pipeline ever passes (the step-3 guard returns 404 on an empty
universe before step 4 runs). -/
def mapToLocalWith (table : List Pair) (dois : List String) (n : Nat) : List Pair :=
  (batchedStrings dois n).foldl (fun ids batch => ids ++ queryInByV table batch) []

/-- Go `mapToLocal` rows, with the server's fixed `size = 500` ("Anything
between 1 and 999"); error path elided as in `mapToLocalWith`. -/
def mapToLocal (table : List Pair) (dois : List String) : List Pair :=
  mapToLocalWith table dois 500

/-- The `sqlx.In` expansion of one `IN (?)` batch: sqlx rejects a
zero-length value slice with the error "empty slice passed to in query"
before any SQL is issued; otherwise the batch becomes the bound
arguments. -/
def sqlxIn (batch : List String) : Except String (List String) :=
  if batch.isEmpty then Except.error "empty slice passed to in query"
  else Except.ok batch

/-- Go `mapToLocal` with its error path: per batch, `sqlx.In` either fails
— the loop stops and the error is wrapped as in
`fmt.Errorf("query (%d): %v", len(dois), err)` — or yields the bound batch,
whose IN-query rows are appended to the accumulator. -/
def mapToLocalE (table : List Pair) (dois : List String) (n : Nat) :
    Except String (List Pair) :=
  (batchedStrings dois n).foldlM
    (fun ids batch =>
      match sqlxIn batch with
      | Except.error e =>
          Except.error ("query (" ++ toString dois.length ++ "): " ++ e)
      | Except.ok b => Except.ok (ids ++ queryInByV table b))
    []

/-- Go struct `Snippet`: "a small piece of index metadata used for
institution filter", carrying just the `institution` array. -/
structure Snippet where
  institution : List String
deriving DecidableEq

/-- The `Unmatched` sub-struct of the Go `Response`. -/
structure UnmatchedGroup where
  citing : List Doc := []
  cited : List Doc := []
deriving DecidableEq

/-- The `Extra` sub-struct of the Go `Response`.  `took` (float64 seconds in
Go) is modelled as a rational. -/
structure Extra where
  unmatchedCitingCount : Nat := 0
  unmatchedCitedCount : Nat := 0
  citingCount : Nat := 0
  citedCount : Nat := 0
  cached : Bool := false
  took : ℚ := 0
  institution : String := ""
deriving DecidableEq

/-- Go struct `Response`: "a subset of index data fused with citation
data". -/
structure Response where
  id : String := ""
  doi : String := ""
  citing : List Doc := []
  cited : List Doc := []
  unmatched : UnmatchedGroup := {}
  extra : Extra := {}
deriving DecidableEq

/-- Go `Response.updateCounts`: the four count fields become the lengths of
the four slices. -/
def updateCounts (r : Response) : Response :=
  { r with extra :=
      { r.extra with
        citingCount := r.citing.length
        citedCount := r.cited.length
        unmatchedCitingCount := r.unmatched.citing.length
        unmatchedCitedCount := r.unmatched.cited.length } }

/-- Go `sliceContains`: linear scan for a value in a string slice. -/
def sliceContains (ss : List String) (v : String) : Bool :=
  match ss with
  | [] => false
  | s :: rest => if v = s then true else sliceContains rest v

/-- The two loops of `applyInstitutionFilter`: each blob is unmarshalled
into a `Snippet` (`parse` stands for `json.Unmarshal`; `none` is the
"internal data broken" panic, which aborts the request).  Returns the kept
blobs and the moved blobs, both in input order. -/
def filterDocs (parse : Doc → Option Snippet) (institution : String) :
    List Doc → Option (List Doc × List Doc)
  | [] => some ([], [])
  | b :: rest =>
    match parse b with
    | none => none
    | some v =>
      match filterDocs parse institution rest with
      | none => none
      | some (kept, moved) =>
        if sliceContains v.institution institution then some (b :: kept, moved)
        else some (kept, b :: moved)

/-- Go `Response.applyInstitutionFilter`: keeps the blobs whose
`institution` array contains the ISIL, moves the rest into the unmatched
group, recomputes counts and stamps `extra.institution`.  `none` models the
panic on a blob that is not valid JSON. -/
def applyInstitutionFilter (parse : Doc → Option Snippet) (institution : String)
    (r : Response) : Option Response :=
  match filterDocs parse institution r.citing, filterDocs parse institution r.cited with
  | some (citing, movedCiting), some (cited, movedCited) =>
    let r1 : Response :=
      { r with
        citing := citing
        cited := cited
        unmatched :=
          { citing := r.unmatched.citing ++ movedCiting
            cited := r.unmatched.cited ++ movedCited } }
    let r2 := updateCounts r1
    some { r2 with extra := { r2.extra with institution := institution } }
  | _, _ => none

/-- One character of Go's `%q` quoting (double quotes and backslashes
escaped; other DOI characters pass through unchanged). -/
def escapeChar (c : Char) : String :=
  if c = '"' then "\\\"" else if c = '\\' then "\\\\" else String.singleton c

/-- Go `fmt.Sprintf("%q", s)` restricted to the escapes DOIs can need. -/
def goQuote (s : String) : String :=
  "\"" ++ String.join (s.toList.map escapeChar) ++ "\""

/-- The synthetic blob `{"doi_str_mv": "<doi>"}` built by literal byte
concatenation in step 5. -/
def synthUnmatchedDoc (doi : String) : Doc :=
  "\x7b\"doi_str_mv\": " ++ goQuote doi ++ "\x7d"

/-- The step-5 loop over the unmatched DOIs: a DOI in `outbound` goes to
`unmatched.citing`, else one in `inbound` goes to `unmatched.cited`, and a
DOI in neither trips the `panic("cosmic rays detected …")`, modelled as
`none`. -/
def classifyUnmatched (outbound inbound : StrSet) :
    List String → Option (List Doc × List Doc)
  | [] => some ([], [])
  | k :: rest =>
    let b := synthUnmatchedDoc k
    if k ∈ outbound then
      (classifyUnmatched outbound inbound rest).map (fun p => (b :: p.1, p.2))
    else if k ∈ inbound then
      (classifyUnmatched outbound inbound rest).map (fun p => (p.1, b :: p.2))
    else none

/-- The step-6 loop: fetch each local id's blob (`none` is `ErrBlobNotFound`
and skips the row; transport errors, which abort the request, are outside
this model), then classify it by the DOI's membership in `outbound` first,
`inbound` second; a DOI in neither set is dropped by the Go `switch`. -/
def hydrate (fetch : String → Option Doc) (outbound inbound : StrSet) :
    List Pair → List Doc × List Doc
  | [] => ([], [])
  | p :: rest =>
    let acc := hydrate fetch outbound inbound rest
    match fetch p.1 with
    | none => acc
    | some b =>
      if p.2 ∈ outbound then (b :: acc.1, acc.2)
      else if p.2 ∈ inbound then (acc.1, b :: acc.2)
      else acc

/-- Step 3, outbound half: `outbound.Add(v.Value)` over the citing rows. -/
def outboundSet (citingRows : List Pair) : StrSet :=
  citingRows.foldl (fun s p => sadd s p.2) []

/-- Step 3, inbound half: `inbound.Add(v.Key)` over the cited rows. -/
def inboundSet (citedRows : List Pair) : StrSet :=
  citedRows.foldl (fun s p => sadd s p.1) []

/-- Steps 3-7 of `handleLocalIdentifier` for an already-resolved DOI: build
the two edge sets, 404 on an empty union (`none`), reverse-map the DOIs,
record the unmatched ones (`none` also covers the step-5 panic), hydrate the
matched ones, update counts and stamp `took`. -/
def handleAssemble (id doi : String) (citingRows citedRows tableRows : List Pair)
    (fetch : String → Option Doc) (took : ℚ) : Option Response :=
  let outbound := outboundSet citingRows
  let inbound := inboundSet citedRows
  let ds := sunion outbound inbound
  if ds.isEmpty then none
  else
    let ids := mapToLocal tableRows ds
    let matched := ids.map Prod.snd
    let unmatchedSet := sdiff ds (sfromSlice matched)
    match classifyUnmatched outbound inbound unmatchedSet with
    | none => none
    | some (uc, ud) =>
      let cg := (hydrate fetch outbound inbound ids).1
      let cd := (hydrate fetch outbound inbound ids).2
      let r : Response :=
        { id := id, doi := doi, citing := cg, cited := cd,
          unmatched := { citing := uc, cited := ud }, extra := {} }
      let r1 := updateCounts r
      some { r1 with extra := { r1.extra with took := took } }

/-- The outcomes of the `GetContext` call in step 1: a row, `sql.ErrNoRows`,
`context.Canceled`, or any other driver error. -/
inductive DbResult
  | row (v : String)
  | noRows
  | canceled
  | otherError
deriving DecidableEq

/-- What the handler does with the step-1 result before step 2. -/
inductive Step1Outcome
  | proceed (doi : String)
  | respond (status : Nat)
  | silent
deriving DecidableEq

/-- A `SELECT v FROM map WHERE k = ?` point-get against the identifier
table: first matching row, else `sql.ErrNoRows`. -/
def getValue (table : List Pair) (k : String) : DbResult :=
  match table.find? (fun p => decide (p.1 = k)) with
  | some p => .row p.2
  | none => .noRows

/-- The `switch` on the step-1 error in `handleLocalIdentifier`:
`sql.ErrNoRows` → HTTP 404 via `httpErrLogf`, `context.Canceled` → log only
(no response write), anything else → HTTP 500. -/
def step1 (res : DbResult) : Step1Outcome :=
  match res with
  | .row v => .proceed v
  | .noRows => .respond 404
  | .canceled => .silent
  | .otherError => .respond 500

/-- Steps 7-9 for an assembled response: update counts, stamp `took`; if a
cache is configured and the elapsed time exceeds `CacheTriggerDuration`
(both in nanoseconds), stamp `cached := true` and store the JSON-encoded,
zstd-compressed response — the codec round-trip is delegated to the external
libraries, so the cache entry is modelled as the `Response` value itself;
then, only after the cache write, apply the institution filter when `isil`
is non-empty (`none` models its panic), and serve.  Returns the cache entry
(if any) and the served response. -/
def finishResponse (parse : Doc → Option Snippet) (isil : String)
    (cacheConfigured : Bool) (elapsed trigger : Nat) (took : ℚ)
    (r : Response) : Option (Option Response × Response) :=
  let r1 := updateCounts r
  let r2 := { r1 with extra := { r1.extra with took := took } }
  let expensive := cacheConfigured ∧ trigger < elapsed
  let r3 := if expensive then { r2 with extra := { r2.extra with cached := true } } else r2
  let cacheEntry : Option Response := if expensive then some r3 else none
  if isil = "" then some (cacheEntry, r3)
  else
    match applyInstitutionFilter parse isil r3 with
    | none => none
    | some r4 => some (cacheEntry, r4)

/-- The Response as it stands at the moment of the cache write on an
expensive request: counts updated, `took` stamped, `cached := true`, no
filter applied. -/
def cachedSnapshot (took : ℚ) (r : Response) : Response :=
  let r1 := updateCounts r
  let r2 := { r1 with extra := { r1.extra with took := took } }
  { r2 with extra := { r2.extra with cached := true } }

/-- A character the regex class `[0-9.]` accepts: a digit or a dot. -/
def isTookChar (c : Char) : Bool :=
  c.isDigit || c = '.'

/-- The literal part of the pattern and of the replacement: the seven
characters of "took" in quotes followed by a colon. -/
def tookLit : List Char :=
  ['"', 't', 'o', 'o', 'k', '"', ':']

/-- Maximal (greedy) run of `[0-9.]` characters at the front of a stream,
and the remainder. -/
def takeRun : List Char → List Char × List Char
  | [] => ([], [])
  | c :: rest =>
    if isTookChar c then
      let acc := takeRun rest
      (c :: acc.1, acc.2)
    else ([], c :: rest)

/-- Tries the pattern at the current position: the literal "took": followed
by at least one `[0-9.]` character.  On success returns the greedy run and
the remainder of the stream. -/
def matchTook (l : List Char) : Option (List Char × List Char) :=
  if tookLit.isPrefixOf l then
    if (takeRun (l.drop tookLit.length)).1.isEmpty then none
    else some ((takeRun (l.drop tookLit.length)).1, (takeRun (l.drop tookLit.length)).2)
  else none

/-- One pass of the streaming replacer: at each position, emit the
replacement and skip the match if the pattern matches, otherwise copy one
character.  `fuel` bounds the number of steps; the caller passes the stream
length, which always suffices (`replaceTookAux_fuel_le`). -/
def replaceTookAux (repl : List Char) : Nat → List Char → List Char
  | _, [] => []
  | 0, l => l
  | fuel + 1, c :: rest =>
    match matchTook (c :: rest) with
    | some acc => repl ++ replaceTookAux repl fuel acc.2
    | none => c :: replaceTookAux repl fuel rest

/-- The streaming transformer `replace.RegexpString` specialised to the
`"took":[0-9.]+` pattern: replaces every match by `repl`. -/
def replaceTook (repl : List Char) (l : List Char) : List Char :=
  replaceTookAux repl l.length l

/-- Locates the first match of the pattern: returns the unmatched prefix,
the matched `[0-9.]+` run and the remainder.  Same fuel discipline as
`replaceTookAux`. -/
def findTookAux : Nat → List Char → Option (List Char × List Char × List Char)
  | _, [] => none
  | 0, _ => none
  | fuel + 1, c :: rest =>
    match matchTook (c :: rest) with
    | some acc => some ([], acc.1, acc.2)
    | none => (findTookAux fuel rest).map (fun t => (c :: t.1, t.2.1, t.2.2))

/-- First match of the `"took":[0-9.]+` pattern in a stream, if any. -/
def findTook (l : List Char) : Option (List Char × List Char × List Char) :=
  findTookAux l.length l

/-- The branch of the step-0 cache hit after decompression: rewrite the
takes pattern with the fresh value, then either stream the rewritten bytes
verbatim (`i` empty) or decode, filter and re-encode them (`i` non-empty;
that decode/filter/encode composite stays abstract as `filterEncode`).
`secs` is the `%f`-rendering of the fresh elapsed seconds. -/
def cacheHitBody (filterEncode : List Char → List Char) (isil : String)
    (cached : List Char) (secs : List Char) : List Char :=
  let repl := tookLit ++ secs
  let rewritten := replaceTook repl cached
  if isil = "" then rewritten else filterEncode rewritten

/-- The index-data store of the C2 witness scenario: two local records with
blobs present. -/
def c2WitFetch : String → Option Doc :=
  fun k => if k = "L2" then some "B2" else if k = "L3" then some "B3" else none

/-- The response the pipeline assembles in the C2 witness scenario. -/
def c2WitResponse : Response :=
  { id := "L1", doi := "D1", citing := ["B2"], cited := ["B3"],
    unmatched := {},
    extra := { unmatchedCitingCount := 0, unmatchedCitedCount := 0,
               citingCount := 1, citedCount := 1, cached := false,
               took := 0, institution := "" } }

/-- The response the pipeline assembles in the C2 counterexample scenario
(one outbound DOI, mapped row present, blob missing). -/
def c2CexResponse : Response :=
  { id := "L1", doi := "D1", citing := [], cited := [],
    unmatched := {},
    extra := { unmatchedCitingCount := 0, unmatchedCitedCount := 0,
               citingCount := 0, citedCount := 0, cached := false,
               took := 0, institution := "" } }

/-! ## Theorems -/

theorem sadd_nodup {s : StrSet} (h : s.Nodup) (x : String) : (sadd s x).Nodup := by
  unfold sadd
  split
  · exact h
  · simpa [List.nodup_append] using ⟨h, by assumption⟩

theorem mem_sadd {s : StrSet} {x y : String} : y ∈ sadd s x ↔ y ∈ s ∨ y = x := by
  unfold sadd
  split
  · rename_i hx
    constructor
    · exact fun h => Or.inl h
    · rintro (h | rfl) <;> assumption
  · simp

theorem sfromSlice_aux (acc : StrSet) (xs : List String) :
    ∀ y, y ∈ xs.foldl sadd acc ↔ y ∈ acc ∨ y ∈ xs := by
  induction xs generalizing acc with
  | nil => simp
  | cons x xs ih =>
    intro y
    simp only [List.foldl_cons, ih, mem_sadd, List.mem_cons]
    tauto

theorem mem_sfromSlice {xs : List String} {y : String} :
    y ∈ sfromSlice xs ↔ y ∈ xs := by
  unfold sfromSlice
  simpa using sfromSlice_aux [] xs y

theorem mem_sunion {a b : StrSet} {y : String} :
    y ∈ sunion a b ↔ y ∈ a ∨ y ∈ b := by
  unfold sunion
  exact sfromSlice_aux a b y

theorem sunion_nodup {a b : StrSet} (h : a.Nodup) : (sunion a b).Nodup := by
  unfold sunion
  induction b generalizing a with
  | nil => exact h
  | cons x xs ih => exact ih (sadd_nodup h x)

/-- With a duplicate-free right operand, union is the left operand followed by
the genuinely new elements, in order. -/
theorem sunion_eq_append {a b : StrSet} (hb : b.Nodup) :
    sunion a b = a ++ b.filter (fun x => decide (x ∉ a)) := by
  unfold sunion
  induction b generalizing a with
  | nil => simp
  | cons x xs ih =>
    rcases List.nodup_cons.mp hb with ⟨hx, hxs⟩
    simp only [List.foldl_cons, List.filter_cons]
    by_cases hxa : x ∈ a
    · rw [show sadd a x = a from if_pos hxa, ih hxs]
      simp [hxa]
    · rw [show sadd a x = a ++ [x] from if_neg hxa, ih hxs]
      have hfilter : xs.filter (fun y => decide (y ∉ a ++ [x]))
          = xs.filter (fun y => decide (y ∉ a)) := by
        apply List.filter_congr
        intro y hy
        have hne : y ≠ x := fun h => hx (h ▸ hy)
        simp [hne]
      rw [hfilter]
      simp [hxa]

/-- With `n ≥ 1`, any fuel at least `ss.length` produces the same batches:
the fuel bound never cuts the loop short. -/
theorem batchedStringsAux_fuel_le (n : Nat) (hn : 1 ≤ n) :
    ∀ fuel fuel' ss, ss.length ≤ fuel → ss.length ≤ fuel' →
      batchedStringsAux n fuel ss = batchedStringsAux n fuel' ss := by
  intro fuel
  induction fuel with
  | zero =>
    intro fuel' ss hf hf'
    have hss : ss.length = 0 := Nat.le_zero.mp hf
    cases fuel' with
    | zero => rfl
    | succ fuel' =>
      simp only [batchedStringsAux]
      rw [if_pos (by omega)]
  | succ fuel ih =>
    intro fuel' ss hf hf'
    cases fuel' with
    | zero =>
      have hss : ss.length = 0 := Nat.le_zero.mp hf'
      simp only [batchedStringsAux]
      rw [if_pos (by omega)]
    | succ fuel' =>
      simp only [batchedStringsAux]
      split
      · rfl
      · rename_i hlen
        rw [ih fuel' (ss.drop n) (by simp; omega) (by simp; omega)]

theorem batchedStringsAux_flatten (n : Nat) :
    ∀ fuel ss, (batchedStringsAux n fuel ss).flatten = ss := by
  intro fuel
  induction fuel with
  | zero => intro ss; simp [batchedStringsAux]
  | succ fuel ih =>
    intro ss
    simp only [batchedStringsAux]
    split
    · simp
    · simp [ih]

theorem batchedStrings_flatten (ss : List String) (n : Nat) :
    (batchedStrings ss n).flatten = ss := by
  unfold batchedStrings
  split
  · simp
  · exact batchedStringsAux_flatten n ss.length ss

theorem batchedStringsAux_length_le (n : Nat) (hn : 1 ≤ n) :
    ∀ fuel ss, ss.length ≤ fuel → ∀ b ∈ batchedStringsAux n fuel ss, b.length ≤ n := by
  intro fuel
  induction fuel with
  | zero =>
    intro ss hf b hb
    simp only [batchedStringsAux, List.mem_singleton] at hb
    subst hb
    omega
  | succ fuel ih =>
    intro ss hf b hb
    simp only [batchedStringsAux] at hb
    split at hb
    · rename_i hlen
      simp only [List.mem_singleton] at hb
      exact hb ▸ hlen
    · rename_i hlen
      rcases List.mem_cons.mp hb with rfl | hb
      · simp
      · exact ih (ss.drop n) (by simp; omega) b hb

theorem batchedStrings_length_le (ss : List String) (n : Nat) (hn : 1 ≤ n) :
    ∀ b ∈ batchedStrings ss n, b.length ≤ n := by
  unfold batchedStrings
  rw [if_neg (by omega)]
  exact batchedStringsAux_length_le n hn ss.length ss le_rfl

theorem mapToLocalWith_eq_flatten (table : List Pair) (dois : List String) (n : Nat) :
    mapToLocalWith table dois n
      = ((batchedStrings dois n).map (queryInByV table)).flatten := by
  unfold mapToLocalWith
  generalize batchedStrings dois n = bs
  have H : ∀ (bs : List (List String)) (acc : List Pair),
      bs.foldl (fun ids batch => ids ++ queryInByV table batch) acc
        = acc ++ (bs.map (queryInByV table)).flatten := by
    intro bs
    induction bs with
    | nil => simp
    | cons b bs ih => intro acc; simp [ih, List.append_assoc]
  simpa using H bs []

theorem classifyUnmatched_eq (ob ib : StrSet) :
    ∀ un : List String, (∀ k ∈ un, k ∈ ob ∨ k ∈ ib) →
      classifyUnmatched ob ib un
        = some ((un.filter (fun k => decide (k ∈ ob))).map synthUnmatchedDoc,
                (un.filter (fun k => decide (k ∉ ob) && decide (k ∈ ib))).map
                  synthUnmatchedDoc) := by
  intro un
  induction un with
  | nil => intro _; rfl
  | cons k rest ih =>
    intro h
    have hk := h k (List.mem_cons_self k rest)
    have hrest : ∀ x ∈ rest, x ∈ ob ∨ x ∈ ib :=
      fun x hx => h x (List.mem_cons_of_mem _ hx)
    simp only [classifyUnmatched]
    by_cases hko : k ∈ ob
    · rw [if_pos hko, ih hrest]
      simp [List.filter_cons, hko]
    · have hki : k ∈ ib := hk.resolve_left hko
      rw [if_neg hko, if_pos hki, ih hrest]
      simp [List.filter_cons, hko, hki]

theorem classifyUnmatched_none_iff (ob ib : StrSet) :
    ∀ un : List String,
      classifyUnmatched ob ib un = none ↔ ∃ k ∈ un, k ∉ ob ∧ k ∉ ib := by
  intro un
  induction un with
  | nil => simp [classifyUnmatched]
  | cons k rest ih =>
    simp only [classifyUnmatched, List.mem_cons]
    by_cases hko : k ∈ ob
    · rw [if_pos hko]
      simp only [Option.map_eq_none', ih]
      constructor
      · rintro ⟨x, hx, hxo, hxi⟩
        exact ⟨x, Or.inr hx, hxo, hxi⟩
      · rintro ⟨x, hx, hxo, hxi⟩
        rcases hx with rfl | hx
        · exact absurd hko hxo
        · exact ⟨x, hx, hxo, hxi⟩
    · by_cases hki : k ∈ ib
      · rw [if_neg hko, if_pos hki]
        simp only [Option.map_eq_none', ih]
        constructor
        · rintro ⟨x, hx, hxo, hxi⟩
          exact ⟨x, Or.inr hx, hxo, hxi⟩
        · rintro ⟨x, hx, hxo, hxi⟩
          rcases hx with rfl | hx
          · exact absurd hki hxi
          · exact ⟨x, hx, hxo, hxi⟩
      · rw [if_neg hko, if_neg hki]
        constructor
        · intro _
          exact ⟨k, Or.inl rfl, hko, hki⟩
        · intro _
          rfl

/-- C1: in the unmatched-bookkeeping step, every DOI of `universe \ matched`
whose synthetic blob is produced goes to `unmatched.citing` when the DOI is
in the outbound set (also when it is in both sets — the tie-break), to
`unmatched.cited` when it is only in the inbound set, and the step aborts
with the program-invariant panic exactly when some DOI is in neither
set. -/
theorem claim_C1 (outbound inbound univ : StrSet) (matched : List String) :
    ((∀ k ∈ sdiff univ (sfromSlice matched), k ∈ outbound ∨ k ∈ inbound) →
      classifyUnmatched outbound inbound (sdiff univ (sfromSlice matched))
        = some
          (((sdiff univ (sfromSlice matched)).filter
              (fun k => decide (k ∈ outbound))).map synthUnmatchedDoc,
           ((sdiff univ (sfromSlice matched)).filter
              (fun k => decide (k ∉ outbound) && decide (k ∈ inbound))).map
             synthUnmatchedDoc))
    ∧ (classifyUnmatched outbound inbound (sdiff univ (sfromSlice matched)) = none
        ↔ ∃ k ∈ sdiff univ (sfromSlice matched), k ∉ outbound ∧ k ∉ inbound) :=
  ⟨classifyUnmatched_eq _ _ _, classifyUnmatched_none_iff _ _ _⟩

/-- Witness for C1: a universe with an outbound-only, an inbound-only and a
both-directions DOI; the both-directions DOI lands in `unmatched.citing`. -/
theorem claim_C1_witness :
    classifyUnmatched ["D2", "DB"] ["D3", "DB"] (sdiff ["D2", "D3", "DB"] (sfromSlice []))
      = some ([synthUnmatchedDoc "D2", synthUnmatchedDoc "DB"], [synthUnmatchedDoc "D3"]) := by
  have h := (claim_C1 ["D2", "DB"] ["D3", "DB"] ["D2", "D3", "DB"] []).1 (by decide)
  rw [h]
  rfl

/-- C5: `mapToLocal` issues its IN-queries batch by batch — the result is
the in-order concatenation of the per-batch query results, the batches
concatenate back to the input DOI list, and every batch holds at most 500
values. -/
theorem claim_C5 (table : List Pair) (dois : List String) :
    mapToLocal table dois
        = ((batchedStrings dois 500).map (queryInByV table)).flatten
      ∧ (batchedStrings dois 500).flatten = dois
      ∧ ∀ b ∈ batchedStrings dois 500, b.length ≤ 500 :=
  ⟨mapToLocalWith_eq_flatten table dois 500, batchedStrings_flatten dois 500,
   batchedStrings_length_le dois 500 (by omega)⟩

/-- Witness for C5 at a concrete table and DOI list. -/
theorem claim_C5_witness :
    mapToLocal [("k1", "a")] ["a", "b"]
        = ((batchedStrings ["a", "b"] 500).map (queryInByV [("k1", "a")])).flatten
      ∧ (["a", "b"] : List String).length ≤ 500 :=
  ⟨(claim_C5 [("k1", "a")] ["a", "b"]).1,
   (claim_C5 [("k1", "a")] ["a", "b"]).2.2 ["a", "b"] (by decide)⟩

/-- C9: step 1 answers HTTP 404 when the id has no row in the identifier
table, writes nothing on cancellation, and answers HTTP 500 on any other
database error. -/
theorem claim_C9 (table : List Pair) (id : String) :
    ((∀ p ∈ table, p.1 ≠ id) → step1 (getValue table id) = .respond 404)
    ∧ step1 .canceled = .silent
    ∧ step1 .otherError = .respond 500 := by
  refine ⟨?_, rfl, rfl⟩
  intro h
  have hfind : table.find? (fun p => decide (p.1 = id)) = none :=
    List.find?_eq_none.mpr (fun p hp => by simp [h p hp])
  simp [getValue, hfind, step1]

/-- Witness for C9: a table without the requested id yields 404. -/
theorem claim_C9_witness :
    step1 (getValue [("L1", "D1")] "L2") = .respond 404
      ∧ step1 .canceled = .silent :=
  ⟨(claim_C9 [("L1", "D1")] "L2").1 (by decide), (claim_C9 [("L1", "D1")] "L2").2.1⟩

theorem batchedStrings_empty (n : Nat) : batchedStrings ([] : List String) n = [[]] := by
  unfold batchedStrings
  split
  · rfl
  · rfl

theorem batchedStringsAux_ne_nil (n : Nat) (hn : 1 ≤ n) :
    ∀ fuel ss, ss.length ≤ fuel → ss ≠ [] →
      ∀ b ∈ batchedStringsAux n fuel ss, b ≠ [] := by
  intro fuel
  induction fuel with
  | zero =>
    intro ss hf hne b hb
    simp only [batchedStringsAux, List.mem_singleton] at hb
    exact hb ▸ hne
  | succ fuel ih =>
    intro ss hf hne b hb
    simp only [batchedStringsAux] at hb
    split at hb
    · simp only [List.mem_singleton] at hb
      exact hb ▸ hne
    · rename_i hlen
      rcases List.mem_cons.mp hb with rfl | hb
      · intro hnil
        have hlt : (ss.take n).length = 0 := by rw [hnil]; rfl
        simp only [List.length_take] at hlt
        omega
      · refine ih (ss.drop n) (by simp; omega) ?_ b hb
        intro hnil
        have hlt : (ss.drop n).length = 0 := by rw [hnil]; rfl
        simp only [List.length_drop] at hlt
        omega

theorem batchedStrings_ne_nil (ss : List String) (n : Nat) (hn : 1 ≤ n)
    (hne : ss ≠ []) : ∀ b ∈ batchedStrings ss n, b ≠ [] := by
  unfold batchedStrings
  rw [if_neg (by omega)]
  exact batchedStringsAux_ne_nil n hn ss.length ss le_rfl hne

/-- On an empty DOI list the single empty batch makes `sqlx.In` fail: no
query is issued and the wrapped error is returned. -/
theorem mapToLocalE_nil (table : List Pair) (n : Nat) :
    mapToLocalE table [] n
      = Except.error "query (0): empty slice passed to in query" := by
  unfold mapToLocalE
  rw [batchedStrings_empty]
  rfl

/-- On a non-empty DOI list with a positive batch size no batch is empty,
`sqlx.In` never fails, and the full `mapToLocalE` returns exactly the rows
of the error-free projection `mapToLocalWith`. -/
theorem mapToLocalE_ok (table : List Pair) (dois : List String) (n : Nat)
    (hn : 1 ≤ n) (hne : dois ≠ []) :
    mapToLocalE table dois n = Except.ok (mapToLocalWith table dois n) := by
  unfold mapToLocalE mapToLocalWith
  have H : ∀ (bs : List (List String)), (∀ b ∈ bs, b ≠ []) → ∀ acc : List Pair,
      List.foldlM
          (fun ids batch =>
            match sqlxIn batch with
            | Except.error e =>
                Except.error ("query (" ++ toString dois.length ++ "): " ++ e)
            | Except.ok b => Except.ok (ids ++ queryInByV table b))
          acc bs
        = Except.ok (bs.foldl (fun ids batch => ids ++ queryInByV table batch) acc) := by
    intro bs
    induction bs with
    | nil => intro _ _; rfl
    | cons b bs ih =>
      intro hbs acc
      have hb0 : b ≠ [] := hbs b (List.mem_cons_self _ _)
      have hsq : sqlxIn b = Except.ok b := by
        unfold sqlxIn
        rw [if_neg]
        simpa [List.isEmpty_iff] using hb0
      simp only [List.foldlM, List.foldl, hsq]
      exact ih (fun x hx => hbs x (List.mem_cons_of_mem _ hx)) _
  exact H _ (batchedStrings_ne_nil dois n hn hne) []

/-- C10 counterexample: `mapToLocal` on the empty DOI list does not issue
an IN-query over zero values — `sqlx.In` rejects the empty batch and the
function returns the wrapped error instead of the query's rows. -/
theorem claim_C10_counterexample :
    mapToLocalE [("k1", "a")] [] 500
        = Except.error "query (0): empty slice passed to in query"
      ∧ mapToLocalE [("k1", "a")] [] 500
          ≠ Except.ok (queryInByV [("k1", "a")] []) := by
  have h : mapToLocalE [("k1", "a")] [] 500
      = Except.error "query (0): empty slice passed to in query" := rfl
  refine ⟨h, ?_⟩
  rw [h]
  intro hc
  exact Except.noConfusion hc

/-- C10 (amended): for a positive batch size the batches concatenate back
to the input and each batch has at most `n` elements, and the empty slice
yields the single empty batch — but `mapToLocal` on an empty DOI list
issues no IN-query: `sqlx.In` fails on the empty batch with "empty slice
passed to in query" and `mapToLocal` returns that error, wrapped. -/
theorem claim_C10 (table : List Pair) :
    (∀ (ss : List String) (n : Nat), 1 ≤ n → ss ≠ [] →
        (batchedStrings ss n).flatten = ss ∧ ∀ b ∈ batchedStrings ss n, b.length ≤ n)
    ∧ (∀ n : Nat, batchedStrings ([] : List String) n = [[]])
    ∧ (∀ n : Nat, mapToLocalE table [] n
        = Except.error "query (0): empty slice passed to in query") :=
  ⟨fun ss n hn _ => ⟨batchedStrings_flatten ss n, batchedStrings_length_le ss n hn⟩,
   batchedStrings_empty, fun n => mapToLocalE_nil table n⟩

/-- Witness for C10 at a two-element slice, batch size one, and the empty
DOI list. -/
theorem claim_C10_witness :
    (batchedStrings ["a", "b"] 1).flatten = ["a", "b"]
      ∧ batchedStrings ([] : List String) 3 = [[]]
      ∧ mapToLocalE [] [] 7
          = Except.error "query (0): empty slice passed to in query" :=
  ⟨((claim_C10 []).1 ["a", "b"] 1 (by decide) (by decide)).1,
   (claim_C10 []).2.1 3, (claim_C10 []).2.2 7⟩

/-- C4: on an expensive request (cache configured, elapsed time beyond the
trigger) with a non-empty institution parameter, the value written to the
cache is the unfiltered response `rc` (counts updated, `took` and
`cached := true` stamped, holdings filter NOT applied), while the body
served to the client is the result of filtering that same `rc`; the filter
runs only after the cache write, so the served value is a function of the
cached one. -/
theorem claim_C4 (parse : Doc → Option Snippet) (isil : String)
    (cacheConfigured : Bool) (elapsed trigger : Nat) (took : ℚ)
    (r rs : Response)
    (hcc : cacheConfigured = true) (hexp : trigger < elapsed) (hisil : isil ≠ "")
    (hfilter : applyInstitutionFilter parse isil (cachedSnapshot took r) = some rs) :
    finishResponse parse isil cacheConfigured elapsed trigger took r
      = some (some (cachedSnapshot took r), rs) := by
  subst hcc
  simp only [cachedSnapshot] at hfilter
  simp only [finishResponse, cachedSnapshot, if_neg hisil, true_and, if_pos hexp, hfilter]

/-- Witness for C4 at a concrete expensive request. -/
theorem claim_C4_witness :
    finishResponse (fun _ => some ⟨["DE-14"]⟩) "DE-14" true 5 1 2
        { citing := ["b1"] }
      = some
        (some (cachedSnapshot 2 { citing := ["b1"] }),
         { citing := ["b1"],
           unmatched := {},
           extra := { unmatchedCitingCount := 0, unmatchedCitedCount := 0,
                      citingCount := 1, citedCount := 0, cached := true,
                      took := 2, institution := "DE-14" } }) :=
  claim_C4 (fun _ => some ⟨["DE-14"]⟩) "DE-14" true 5 1 2 { citing := ["b1"] } _
    rfl (by omega) (by decide) (by decide)

theorem takeRun_append : ∀ l : List Char, (takeRun l).1 ++ (takeRun l).2 = l := by
  intro l
  induction l with
  | nil => rfl
  | cons c rest ih =>
    simp only [takeRun]
    split
    · simpa using ih
    · rfl

theorem matchTook_some {l run rem : List Char} (h : matchTook l = some (run, rem)) :
    l = tookLit ++ run ++ rem ∧ run ≠ [] := by
  unfold matchTook at h
  split at h
  · rename_i hpre
    split at h
    · exact absurd h (by simp)
    · rename_i hrun
      simp only [Option.some.injEq, Prod.mk.injEq] at h
      have hp : tookLit <+: l := by
        rw [← List.isPrefixOf_iff_prefix]
        exact hpre
      have hl : tookLit ++ l.drop tookLit.length = l :=
        List.prefix_iff_eq_append.mp hp
      constructor
      · rw [← h.1, ← h.2, List.append_assoc, takeRun_append, hl]
      · intro hnil
        exact hrun (by rw [h.1, hnil]; rfl)
  · exact absurd h (by simp)

theorem matchTook_rem_lt {l run rem : List Char} (h : matchTook l = some (run, rem)) :
    rem.length + 8 ≤ l.length := by
  obtain ⟨hdec, hrun⟩ := matchTook_some h
  have : l.length = tookLit.length + run.length + rem.length := by
    rw [hdec]
    simp [List.length_append]
    omega
  have hrl : 1 ≤ run.length := by
    cases run with
    | nil => exact absurd rfl hrun
    | cons _ _ => simp
  simp [tookLit] at this
  omega

theorem replaceTookAux_fuel_le (repl : List Char) :
    ∀ fuel fuel' l, l.length ≤ fuel → l.length ≤ fuel' →
      replaceTookAux repl fuel l = replaceTookAux repl fuel' l := by
  intro fuel
  induction fuel with
  | zero =>
    intro fuel' l hf hf'
    have : l = [] := List.eq_nil_of_length_eq_zero (Nat.le_zero.mp hf)
    subst this
    cases fuel' <;> rfl
  | succ fuel ih =>
    intro fuel' l hf hf'
    cases l with
    | nil => cases fuel' <;> rfl
    | cons c rest =>
      cases fuel' with
      | zero => simp at hf'
      | succ fuel' =>
        simp only [replaceTookAux]
        cases hm : matchTook (c :: rest) with
        | some acc =>
          have hlt := matchTook_rem_lt hm
          simp only [List.length_cons] at hf hf' hlt
          simp only [ih fuel' acc.2 (by omega) (by omega)]
        | none =>
          simp only [List.length_cons] at hf hf'
          simp only [ih fuel' rest (by omega) (by omega)]

/-- Where the scanner finds its first match, the stream splits as
`a ++ "took-pattern" ++ b` and the replacer emits the prefix verbatim, the
replacement, and then keeps scanning the remainder. -/
theorem findTookAux_spec (repl : List Char) :
    ∀ fuel l a run b, l.length ≤ fuel →
      findTookAux fuel l = some (a, run, b) →
      l = a ++ tookLit ++ run ++ b
        ∧ replaceTook repl l = a ++ repl ++ replaceTook repl b := by
  intro fuel
  induction fuel with
  | zero =>
    intro l a run b hf h
    cases l with
    | nil => exact absurd h (by simp [findTookAux])
    | cons c rest => exact absurd h (by simp [findTookAux])
  | succ fuel ih =>
    intro l a run b hf h
    cases l with
    | nil => exact absurd h (by simp [findTookAux])
    | cons c rest =>
      simp only [findTookAux] at h
      cases hm : matchTook (c :: rest) with
      | some acc =>
        rw [hm] at h
        simp only [Option.some.injEq, Prod.mk.injEq] at h
        obtain ⟨ha, hrun, hb⟩ := h
        subst ha
        obtain ⟨hdec, -⟩ := matchTook_some hm
        have hlt := matchTook_rem_lt hm
        constructor
        · rw [← hrun, ← hb]
          simpa using hdec
        · unfold replaceTook
          simp only [List.length_cons, replaceTookAux, hm]
          rw [replaceTookAux_fuel_le repl rest.length acc.2.length acc.2
              (by simp only [List.length_cons] at hlt; omega) le_rfl]
          rw [hb]
          simp
      | none =>
        rw [hm] at h
        rcases Option.map_eq_some'.mp h with ⟨t, ht, hfab⟩
        obtain ⟨rfl, rfl, rfl⟩ : c :: t.1 = a ∧ t.2.1 = run ∧ t.2.2 = b := by
          have := hfab
          simp only [Prod.mk.injEq] at this
          exact ⟨this.1, this.2.1, this.2.2⟩
        have hrest : rest.length ≤ fuel := by
          simp only [List.length_cons] at hf
          omega
        obtain ⟨hd, hr⟩ := ih rest t.1 t.2.1 t.2.2 hrest ht
        constructor
        · simp only [List.cons_append]
          rw [← hd]
        · unfold replaceTook
          simp only [List.length_cons, replaceTookAux, hm]
          have hfold : replaceTookAux repl rest.length rest = replaceTook repl rest := rfl
          rw [hfold, hr]
          simp [replaceTook]

/-- C3: when the decompressed cached bytes contain a single occurrence of
the pattern (the scanner finds one at `a`/`run`/`b` and the remainder `b`
is match-free), the cache-hit path rewrites exactly that occurrence to the
freshly rendered elapsed seconds, and with an empty institution parameter
the rewritten bytes are the response body verbatim. -/
theorem claim_C3 (filterEncode : List Char → List Char)
    (cached secs a run b : List Char)
    (h1 : findTook cached = some (a, run, b))
    (h2 : replaceTook (tookLit ++ secs) b = b) :
    cached = a ++ tookLit ++ run ++ b
      ∧ cacheHitBody filterEncode "" cached secs = a ++ (tookLit ++ secs) ++ b := by
  unfold findTook at h1
  obtain ⟨hd, hr⟩ := findTookAux_spec (tookLit ++ secs) cached.length cached a run b le_rfl h1
  refine ⟨hd, ?_⟩
  unfold cacheHitBody
  rw [if_pos rfl, hr, h2]

/-- Witness for C3: a concrete cached JSON body whose `"took":0.31` is
rewritten to the fresh `0.07`. -/
theorem claim_C3_witness :
    cacheHitBody (fun l => l) ""
        ("\x7b\"id\":\"L1\",\"took\":0.31,\"cached\":true\x7d").toList
        ("0.07").toList
      = ("\x7b\"id\":\"L1\",").toList ++ (tookLit ++ ("0.07").toList)
          ++ (",\"cached\":true\x7d").toList :=
  (claim_C3 (fun l => l)
    ("\x7b\"id\":\"L1\",\"took\":0.31,\"cached\":true\x7d").toList
    ("0.07").toList
    ("\x7b\"id\":\"L1\",").toList
    ("0.31").toList
    (",\"cached\":true\x7d").toList
    (by decide) (by decide)).2

theorem filter_or_perm {α : Type} (p q : α → Bool) :
    ∀ l : List α, (∀ x ∈ l, ¬(p x = true ∧ q x = true)) →
      (l.filter p ++ l.filter q).Perm (l.filter (fun x => p x || q x)) := by
  intro l
  induction l with
  | nil => intro _; simp
  | cons a l ih =>
    intro h
    have hl := fun x hx => h x (List.mem_cons_of_mem _ hx)
    have ha := h a (List.mem_cons_self _ _)
    by_cases hp : p a
    · have hq : ¬q a = true := fun hq => ha ⟨hp, hq⟩
      simp only [List.filter_cons, hp, hq, if_true, if_false, hp, Bool.true_or]
      simp only [List.cons_append]
      exact (ih hl).cons a
    · by_cases hq : q a
      · simp only [List.filter_cons, hp, hq, if_false, if_true, Bool.false_or]
        exact List.perm_middle.trans ((ih hl).cons a)
      · simp only [List.filter_cons, hp, hq, if_false, Bool.false_or]
        exact ih hl

theorem queryInByV_append_perm (table : List Pair) (b c : List String)
    (hdisj : ∀ x ∈ b, x ∉ c) :
    (queryInByV table b ++ queryInByV table c).Perm (queryInByV table (b ++ c)) := by
  unfold queryInByV
  have hexcl : ∀ pr ∈ table,
      ¬(decide (pr.2 ∈ b) = true ∧ decide (pr.2 ∈ c) = true) := by
    intro pr _ ⟨h1, h2⟩
    exact hdisj pr.2 (of_decide_eq_true h1) (of_decide_eq_true h2)
  refine (filter_or_perm _ _ table hexcl).trans ?_
  have hpt : ∀ pr : Pair,
      (decide (pr.2 ∈ b) || decide (pr.2 ∈ c)) = decide (pr.2 ∈ b ++ c) := by
    intro pr
    simp [List.mem_append]
  simp only [hpt]
  exact List.Perm.refl _

theorem flatten_query_perm (table : List Pair) :
    ∀ L : List (List String), L.flatten.Nodup →
      ((L.map (queryInByV table)).flatten).Perm (queryInByV table L.flatten) := by
  intro L
  induction L with
  | nil => intro _; simp [queryInByV]
  | cons b L ih =>
    intro h
    simp only [List.flatten_cons] at h
    rcases List.nodup_append.mp h with ⟨hb, hL, hdisj⟩
    simp only [List.map_cons, List.flatten_cons]
    refine (List.Perm.append_left _ (ih hL)).trans ?_
    exact queryInByV_append_perm table b L.flatten hdisj

theorem mapToLocalWith_perm (table : List Pair) (xs : List String) (n : Nat)
    (h : xs.Nodup) :
    (mapToLocalWith table xs n).Perm (queryInByV table xs) := by
  rw [mapToLocalWith_eq_flatten]
  have hflat : (batchedStrings xs n).flatten = xs := batchedStrings_flatten xs n
  have hperm := flatten_query_perm table (batchedStrings xs n) (by rw [hflat]; exact h)
  rw [hflat] at hperm
  exact hperm

theorem queryInByV_congr (table : List Pair) {xs ys : List String}
    (h : xs.Perm ys) : queryInByV table xs = queryInByV table ys := by
  unfold queryInByV
  apply List.filter_congr
  intro p _
  simp [h.mem_iff]

/-- C6 counterexample: with a duplicated DOI in the input list, batch size
1 returns the matching row twice while batch size 2 returns it once — the
multiset does depend on the batch size. -/
theorem claim_C6_counterexample :
    ¬ (mapToLocalWith [("k", "a")] ["a", "a"] 1).Perm
        (mapToLocalWith [("k", "a")] ["a", "a"] 2) := by
  decide

/-- C6 (amended: duplicate-free DOI list): for a DOI list without
duplicates — which is how the pipeline calls the adapter, on the slice of a
set — the result is the same multiset regardless of the list's order and of
the batch size in [1, 999]. -/
theorem claim_C6 (table : List Pair) (xs ys : List String) (n m : Nat)
    (hnd : xs.Nodup) (hperm : xs.Perm ys)
    (hn1 : 1 ≤ n) (hn2 : n ≤ 999) (hm1 : 1 ≤ m) (hm2 : m ≤ 999) :
    (mapToLocalWith table xs n).Perm (mapToLocalWith table ys m) := by
  have hynd : ys.Nodup := hperm.nodup_iff.mp hnd
  refine (mapToLocalWith_perm table xs n hnd).trans ?_
  rw [queryInByV_congr table hperm]
  exact (mapToLocalWith_perm table ys m hynd).symm

/-- Witness for C6 at a concrete table, permuted inputs and two batch
sizes. -/
theorem claim_C6_witness :
    (mapToLocalWith [("k", "a"), ("q", "b")] ["a", "b"] 1).Perm
      (mapToLocalWith [("k", "a"), ("q", "b")] ["b", "a"] 2) :=
  claim_C6 [("k", "a"), ("q", "b")] ["a", "b"] ["b", "a"] 1 2
    (by decide) (by decide) (by decide) (by decide) (by decide) (by decide)

theorem countP_or_exclusive {α : Type} (p q : α → Bool) (l : List α)
    (h : ∀ x ∈ l, ¬(p x = true ∧ q x = true)) :
    l.countP (fun x => p x || q x) = l.countP p + l.countP q := by
  have hlen := (filter_or_perm p q l h).length_eq
  simp only [List.length_append] at hlen
  simp only [List.countP_eq_length_filter]
  omega

theorem countP_add_countP_not {α : Type} (p : α → Bool) (l : List α) :
    l.countP p + l.countP (fun x => !(p x)) = l.length := by
  have hex : ∀ x ∈ l, ¬(p x = true ∧ (!(p x)) = true) := by
    intro x _ hc
    rw [hc.1] at hc
    exact absurd hc.2 (by simp)
  rw [← countP_or_exclusive p (fun x => !(p x)) l hex]
  have htrue : l.countP (fun x => p x || !(p x)) = l.countP (fun _ => true) := by
    apply List.countP_congr
    intro x _
    simp
  rw [htrue]
  simp

theorem foldl_sadd_nodup {β : Type} (f : β → String) :
    ∀ (rows : List β) (s : StrSet), s.Nodup →
      (rows.foldl (fun s p => sadd s (f p)) s).Nodup := by
  intro rows
  induction rows with
  | nil => exact fun s hs => hs
  | cons p rest ih => exact fun s hs => ih _ (sadd_nodup hs _)

theorem outboundSet_nodup (rows : List Pair) : (outboundSet rows).Nodup :=
  foldl_sadd_nodup Prod.snd rows [] List.nodup_nil

theorem inboundSet_nodup (rows : List Pair) : (inboundSet rows).Nodup :=
  foldl_sadd_nodup Prod.fst rows [] List.nodup_nil

theorem hydrate_lengths (fetch : String → Option Doc) (ob ib : StrSet) :
    ∀ ids : List Pair,
      (hydrate fetch ob ib ids).1.length
          = ids.countP (fun p => (fetch p.1).isSome && decide (p.2 ∈ ob))
        ∧ (hydrate fetch ob ib ids).2.length
          = ids.countP (fun p => (fetch p.1).isSome &&
              (decide (p.2 ∉ ob) && decide (p.2 ∈ ib))) := by
  intro ids
  induction ids with
  | nil => exact ⟨rfl, rfl⟩
  | cons p rest ih =>
    obtain ⟨ih1, ih2⟩ := ih
    simp only [hydrate, List.countP_cons]
    cases hf : fetch p.1 with
    | none => simp [ih1, ih2]
    | some b =>
      by_cases hpo : p.2 ∈ ob
      · simp [hpo, ih1, ih2]
      · by_cases hpi : p.2 ∈ ib
        · simp [hpo, hpi, ih1, ih2]
        · simp [hpo, hpi, ih1, ih2]

/-- With at most one identifier-table row per DOI, the rows whose `v` lies
in a duplicate-free DOI set are counted by the DOIs that have a row at
all. -/
theorem countP_hasRow (tableRows : List Pair)
    (H1 : ∀ d : String, (tableRows.filter (fun p => decide (p.2 = d))).length ≤ 1) :
    ∀ ob : StrSet, ob.Nodup →
      tableRows.countP (fun p => decide (p.2 ∈ ob))
        = ob.countP (fun k => tableRows.any (fun p => decide (p.2 = k))) := by
  intro ob
  induction ob with
  | nil =>
    intro _
    simp
  | cons k ob ih =>
    intro hnd
    rcases List.nodup_cons.mp hnd with ⟨hk, hob⟩
    have hsplit : tableRows.countP (fun p => decide (p.2 ∈ k :: ob))
        = tableRows.countP (fun p => decide (p.2 = k) || decide (p.2 ∈ ob)) := by
      apply List.countP_congr
      intro p _
      simp [List.mem_cons]
    have hexcl : ∀ p ∈ tableRows,
        ¬(decide (p.2 = k) = true ∧ decide (p.2 ∈ ob) = true) := by
      intro p _ hc
      exact hk (of_decide_eq_true hc.1 ▸ of_decide_eq_true hc.2)
    have hone : tableRows.countP (fun p => decide (p.2 = k))
        = if tableRows.any (fun p => decide (p.2 = k)) then 1 else 0 := by
      by_cases hany : tableRows.any (fun p => decide (p.2 = k)) = true
      · rw [if_pos hany]
        have hpos : 0 < tableRows.countP (fun p => decide (p.2 = k)) := by
          rw [List.countP_pos_iff]
          rcases List.any_eq_true.mp hany with ⟨p, hp, hpd⟩
          exact ⟨p, hp, hpd⟩
        have hle : tableRows.countP (fun p => decide (p.2 = k)) ≤ 1 := by
          rw [List.countP_eq_length_filter]
          exact H1 k
        omega
      · rw [if_neg hany, List.countP_eq_zero]
        intro p hp hpd
        exact hany (List.any_eq_true.mpr ⟨p, hp, hpd⟩)
    rw [hsplit, countP_or_exclusive _ _ _ hexcl, ih hob, List.countP_cons, hone]
    exact Nat.add_comm _ _

/-- C2 (amended): for every assembled (successful, non-cached) response the
four count fields equal the lengths of the four arrays — unconditionally;
and the step-3 relations `citing_count + unmatched_citing_count = |outbound|`
and `cited_count + unmatched_cited_count = |inbound|` hold under the extra
hypotheses the code requires: every DOI has at most one identifier-table
row, every blob of a mapped row is found, and the outbound and inbound sets
are disjoint. -/
theorem claim_C2 (id doi : String) (citingRows citedRows tableRows : List Pair)
    (fetch : String → Option Doc) (took : ℚ) (r : Response)
    (h : handleAssemble id doi citingRows citedRows tableRows fetch took = some r) :
    (r.extra.citingCount = r.citing.length
      ∧ r.extra.citedCount = r.cited.length
      ∧ r.extra.unmatchedCitingCount = r.unmatched.citing.length
      ∧ r.extra.unmatchedCitedCount = r.unmatched.cited.length)
    ∧ ((∀ d : String, (tableRows.filter (fun p => decide (p.2 = d))).length ≤ 1) →
       (∀ p ∈ tableRows,
          p.2 ∈ sunion (outboundSet citingRows) (inboundSet citedRows) →
          (fetch p.1).isSome = true) →
       (∀ d : String, ¬(d ∈ outboundSet citingRows ∧ d ∈ inboundSet citedRows)) →
       r.extra.citingCount + r.extra.unmatchedCitingCount
           = (outboundSet citingRows).length
         ∧ r.extra.citedCount + r.extra.unmatchedCitedCount
           = (inboundSet citedRows).length) := by
  simp only [handleAssemble] at h
  set ob := outboundSet citingRows with hOB
  set ib := inboundSet citedRows with hIB
  set ds := sunion ob ib with hDS
  set ids := mapToLocal tableRows ds with hIDS
  set mset := sfromSlice (ids.map Prod.snd) with hM
  set un := sdiff ds mset with hUN
  split at h
  · exact absurd h (by simp)
  · rename_i hne
    split at h
    · exact absurd h (by simp)
    · rename_i uc ud heqc
      simp only [Option.some.injEq] at h
      -- the four arrays of r
      have hrciting : r.citing = (hydrate fetch ob ib ids).1 := by rw [← h]; rfl
      have hrcited : r.cited = (hydrate fetch ob ib ids).2 := by rw [← h]; rfl
      have hruc : r.unmatched.citing = uc := by rw [← h]; rfl
      have hrud : r.unmatched.cited = ud := by rw [← h]; rfl
      have hcounts : r.extra.citingCount = r.citing.length
          ∧ r.extra.citedCount = r.cited.length
          ∧ r.extra.unmatchedCitingCount = r.unmatched.citing.length
          ∧ r.extra.unmatchedCitedCount = r.unmatched.cited.length := by
        rw [← h]
        simp [updateCounts]
      refine ⟨hcounts, ?_⟩
      intro H1 H2 H3
      have hobnd : ob.Nodup := outboundSet_nodup citingRows
      have hibnd : ib.Nodup := inboundSet_nodup citedRows
      have hdsnd : ds.Nodup := sunion_nodup hobnd
      have hperm : ids.Perm (queryInByV tableRows ds) :=
        mapToLocalWith_perm tableRows ds 500 hdsnd
      have hds_eq : ds = ob ++ ib.filter (fun x => decide (x ∉ ob)) :=
        sunion_eq_append hibnd
      -- membership in the matched set, characterized over the table
      have hmem_matched : ∀ k, k ∈ ds →
          (k ∈ mset ↔ tableRows.any (fun p => decide (p.2 = k)) = true) := by
        intro k hk
        rw [hM, mem_sfromSlice]
        constructor
        · intro hkm
          rcases List.mem_map.mp hkm with ⟨p, hp, hpk⟩
          rcases List.mem_filter.mp (hperm.mem_iff.mp hp) with ⟨hpt, -⟩
          exact List.any_eq_true.mpr ⟨p, hpt, by simp [hpk]⟩
        · intro hany
          rcases List.any_eq_true.mp hany with ⟨p, hpt, hpd⟩
          have hpk : p.2 = k := of_decide_eq_true hpd
          exact List.mem_map.mpr
            ⟨p, hperm.mem_iff.mpr (List.mem_filter.mpr ⟨hpt, by simp [hpk, hk]⟩), hpk⟩
      -- the unmatched DOIs are covered by the two direction sets
      have hcover : ∀ k ∈ un, k ∈ ob ∨ k ∈ ib := by
        intro k hk
        rw [hUN] at hk
        have hkds : k ∈ ds := (List.mem_filter.mp hk).1
        exact mem_sunion.mp (hDS ▸ hkds)
      have heq2 := classifyUnmatched_eq ob ib un hcover
      rw [heqc] at heq2
      simp only [Option.some.injEq, Prod.mk.injEq] at heq2
      -- ==== citing side ====
      have hcg : r.citing.length
          = ids.countP (fun p => (fetch p.1).isSome && decide (p.2 ∈ ob)) := by
        rw [hrciting]
        exact (hydrate_lengths fetch ob ib ids).1
      have step1 : ids.countP (fun p => (fetch p.1).isSome && decide (p.2 ∈ ob))
          = tableRows.countP (fun p => decide (p.2 ∈ ob)) := by
        rw [hperm.countP_eq]
        unfold queryInByV
        rw [List.countP_filter]
        apply List.countP_congr
        intro p hp
        simp only [Bool.and_eq_true, decide_eq_true_eq]
        constructor
        · exact fun hand => hand.1.2
        · intro hpo
          have hpds : p.2 ∈ ds := mem_sunion.mpr (Or.inl hpo)
          exact ⟨⟨H2 p hp hpds, hpo⟩, hpds⟩
      have step2 : r.unmatched.citing.length = un.countP (fun k => decide (k ∈ ob)) := by
        rw [hruc, heq2.1, List.length_map, ← List.countP_eq_length_filter]
      have step3 : un.countP (fun k => decide (k ∈ ob))
          = ob.countP (fun k => decide (k ∉ mset)) := by
        rw [hUN]
        unfold sdiff
        rw [List.countP_filter, hds_eq, List.countP_append]
        have hz : (ib.filter (fun x => decide (x ∉ ob))).countP
            (fun k => decide (k ∈ ob) && decide (k ∉ mset)) = 0 := by
          rw [List.countP_filter, List.countP_eq_zero]
          intro k _ hcontra
          simp only [Bool.and_eq_true, decide_eq_true_eq] at hcontra
          exact hcontra.2 hcontra.1.1
        rw [hz, Nat.add_zero]
        apply List.countP_congr
        intro k hk
        simp [hk]
      have step4 : tableRows.countP (fun p => decide (p.2 ∈ ob))
          = ob.countP (fun k => tableRows.any (fun p => decide (p.2 = k))) :=
        countP_hasRow tableRows H1 ob hobnd
      have step5 : ob.countP (fun k => decide (k ∉ mset))
          = ob.countP (fun k => !(tableRows.any (fun p => decide (p.2 = k)))) := by
        apply List.countP_congr
        intro k hk
        have hchar := hmem_matched k (mem_sunion.mpr (Or.inl hk))
        simp only [decide_eq_true_eq, Bool.not_eq_true']
        constructor
        · intro hnm
          rw [Bool.eq_false_iff]
          exact fun hany => hnm (hchar.mpr hany)
        · intro hfalse hmem
          rw [hchar.mp hmem] at hfalse
          exact absurd hfalse (by simp)
      have hciting : r.extra.citingCount + r.extra.unmatchedCitingCount = ob.length := by
        rw [hcounts.1, hcounts.2.2.1, hcg, step1, step2, step3, step4, step5]
        exact countP_add_countP_not _ ob
      -- ==== cited side ====
      have hcd : r.cited.length
          = ids.countP (fun p => (fetch p.1).isSome &&
              (decide (p.2 ∉ ob) && decide (p.2 ∈ ib))) := by
        rw [hrcited]
        exact (hydrate_lengths fetch ob ib ids).2
      have step1' : ids.countP (fun p => (fetch p.1).isSome &&
              (decide (p.2 ∉ ob) && decide (p.2 ∈ ib)))
          = tableRows.countP (fun p => decide (p.2 ∈ ib)) := by
        rw [hperm.countP_eq]
        unfold queryInByV
        rw [List.countP_filter]
        apply List.countP_congr
        intro p hp
        simp only [Bool.and_eq_true, decide_eq_true_eq]
        constructor
        · exact fun hand => hand.1.2.2
        · intro hpi
          have hpno : p.2 ∉ ob := fun hpo => H3 p.2 ⟨hpo, hpi⟩
          have hpds : p.2 ∈ ds := mem_sunion.mpr (Or.inr hpi)
          exact ⟨⟨H2 p hp hpds, hpno, hpi⟩, hpds⟩
      have step2' : r.unmatched.cited.length
          = un.countP (fun k => decide (k ∉ ob) && decide (k ∈ ib)) := by
        rw [hrud, heq2.2, List.length_map, ← List.countP_eq_length_filter]
      have step3' : un.countP (fun k => decide (k ∉ ob) && decide (k ∈ ib))
          = ib.countP (fun k => decide (k ∉ mset)) := by
        rw [hUN]
        unfold sdiff
        rw [List.countP_filter, hds_eq, List.countP_append]
        have hz : ob.countP
            (fun k => (decide (k ∉ ob) && decide (k ∈ ib)) && decide (k ∉ mset)) = 0 := by
          rw [List.countP_eq_zero]
          intro k hk hcontra
          simp only [Bool.and_eq_true, decide_eq_true_eq] at hcontra
          exact hcontra.1.1 hk
        rw [hz, Nat.zero_add, List.countP_filter]
        apply List.countP_congr
        intro k hk
        have hkno : k ∉ ob := fun hko => H3 k ⟨hko, hk⟩
        simp [hk, hkno]
      have step4' : tableRows.countP (fun p => decide (p.2 ∈ ib))
          = ib.countP (fun k => tableRows.any (fun p => decide (p.2 = k))) :=
        countP_hasRow tableRows H1 ib hibnd
      have step5' : ib.countP (fun k => decide (k ∉ mset))
          = ib.countP (fun k => !(tableRows.any (fun p => decide (p.2 = k)))) := by
        apply List.countP_congr
        intro k hk
        have hchar := hmem_matched k (mem_sunion.mpr (Or.inr hk))
        simp only [decide_eq_true_eq, Bool.not_eq_true']
        constructor
        · intro hnm
          rw [Bool.eq_false_iff]
          exact fun hany => hnm (hchar.mpr hany)
        · intro hfalse hmem
          rw [hchar.mp hmem] at hfalse
          exact absurd hfalse (by simp)
      have hcited : r.extra.citedCount + r.extra.unmatchedCitedCount = ib.length := by
        rw [hcounts.2.1, hcounts.2.2.2, hcd, step1', step2', step3', step4', step5']
        exact countP_add_countP_not _ ib
      exact ⟨hciting, hcited⟩

/-- C2 counterexample: a single outbound DOI whose local record's blob is
missing (`ErrBlobNotFound`) — exactly the spec's own scenario 3.  The
response assembles successfully with all four counts 0, yet the number of
distinct outbound DOIs is 1, so the claimed equation fails. -/
theorem claim_C2_counterexample :
    handleAssemble "L1" "D1" [("D1", "D2")] [] [("L2", "D2")] (fun _ => none) 0
        = some c2CexResponse
      ∧ c2CexResponse.extra.citingCount + c2CexResponse.extra.unmatchedCitingCount
          ≠ (outboundSet [("D1", "D2")]).length := by
  decide

/-- Witness for C2 at a fully-matched two-edge request. -/
theorem claim_C2_witness :
    c2WitResponse.extra.citingCount + c2WitResponse.extra.unmatchedCitingCount
        = (outboundSet [("D1", "D2")]).length
      ∧ c2WitResponse.extra.citedCount + c2WitResponse.extra.unmatchedCitedCount
        = (inboundSet [("D3", "D1")]).length := by
  have H1 : ∀ d : String,
      (([("L2", "D2"), ("L3", "D3")] : List Pair).filter
          (fun p => decide (p.2 = d))).length ≤ 1 := by
    intro d
    by_cases h2 : d = "D2"
    · subst h2; decide
    · by_cases h3 : d = "D3"
      · subst h3; decide
      · have e2 : decide (("D2" : String) = d) = false :=
          decide_eq_false (fun he => h2 he.symm)
        have e3 : decide (("D3" : String) = d) = false :=
          decide_eq_false (fun he => h3 he.symm)
        simp [List.filter_cons, e2, e3]
  have H3 : ∀ d : String,
      ¬(d ∈ outboundSet [("D1", "D2")] ∧ d ∈ inboundSet [("D3", "D1")]) := by
    intro d hc
    have hob : outboundSet [("D1", "D2")] = ["D2"] := rfl
    have hib : inboundSet [("D3", "D1")] = ["D3"] := rfl
    rw [hob, List.mem_singleton] at hc
    rw [hib, List.mem_singleton] at hc
    rw [hc.1] at hc
    exact absurd hc.2 (by decide)
  exact (claim_C2 "L1" "D1" [("D1", "D2")] [("D3", "D1")] [("L2", "D2"), ("L3", "D3")]
    c2WitFetch 0 c2WitResponse (by decide)).2 H1 (by decide) H3

end Ckit
